import Mathlib

/-!
Verification of the result-rendering engine of the mindsdb-cli `query`
command (`cmd/query.go`) against its specification.

Modelling conventions:
* Go strings are modelled as Lean `String`s; Go `len` and slicing are
  byte-based while the model is character-based — the two agree on the
  ASCII data these claims quantify over.
* Go `int` arithmetic is modelled as `Int`.  `int(x)` applied to a
  `float64` product `float64(w) * (float64(a)/float64(b))` truncates
  toward zero; it is modelled exactly as `(w * a).tdiv b` (exact rational
  arithmetic followed by truncation toward zero, which is `Int.tdiv`).
* A Go slice expression `s[:k]` panics when `k` is negative or exceeds
  `len(s)`; fallible rendering paths therefore return `Option`, with
  `none` standing for a runtime panic (index fault).
-/

namespace MindsDBCLI

/-- Length of a modelled Go string (character count). -/
def strLen (s : String) : Nat := s.data.length

/-- First `n` characters of a string (total version used under guards). -/
def strTake (s : String) (n : Nat) : String := ⟨s.data.take n⟩

/-- Go slice `s[:k]` for an `int` index `k`: defined iff `0 ≤ k ≤ len s`,
otherwise a panic (`none`). -/
def goSlice (s : String) (k : Int) : Option String :=
  if 0 ≤ k ∧ k ≤ (strLen s : Int) then some (strTake s k.toNat) else none

/-- Join a list of strings with a separator (models the incremental
printing of separated items). -/
def joinSep : List String → String → String
  | [], _ => ""
  | [s], _ => s
  | s :: rest, sep => s ++ sep ++ joinSep rest sep

/-- The mutable presentation configuration: the `query*` package-level
flag variables of `cmd/query.go` that the renderer reads. -/
structure Config where
  format : String
  maxWidth : Int
  compact : Bool
  vertical : Bool
  limit : Int
  forceTable : Bool
deriving DecidableEq, Repr

/-- Flag defaults registered in `init()` of `cmd/query.go`. -/
def defaultConfig : Config :=
  { format := "table", maxWidth := 20, compact := false,
    vertical := false, limit := 0, forceTable := false }

/-- Maximum of `init` and the lengths of the cells sitting at position `i`
of each row (rows shorter than `i+1` contribute nothing).  Models the
per-column content scan `if i < len(row) && len(row[i]) > colWidth`. -/
def colContentMax (rows : List (List String)) (i : Nat) (init : Nat) : Nat :=
  rows.foldl
    (fun w row =>
      match row.get? i with
      | some cell => if strLen cell > w then strLen cell else w
      | none => w)
    init

/-- The width estimate of `shouldUseVerticalLayout`: per column,
`max(header length, max cell length in that column)` capped at 40,
plus 3, summed across columns (second argument is the column index). -/
def estimatedWidth (rows : List (List String)) : List String → Nat → Nat
  | [], _ => 0
  | col :: rest, i =>
    min (colContentMax rows i (strLen col)) 40 + 3 + estimatedWidth rows rest (i + 1)

/-- `shouldUseVerticalLayout` from `cmd/query.go`: vertical for 15+
columns, for any cell longer than 200 characters, or when the width
estimate exceeds `termWidth + 50`. -/
def shouldUseVerticalLayout (columns : List String) (rows : List (List String))
    (termWidth : Int) : Bool :=
  if columns.length ≥ 15 then true
  else if rows.any (fun row => row.any (fun cell => strLen cell > 200)) then true
  else if (estimatedWidth rows columns 0 : Int) > termWidth + 50 then true
  else false

/-- The layout a table-format display ends up using. -/
inductive Layout
  | table
  | vertical
deriving DecidableEq, Repr

/-- The layout decision made at the top of `displayAsTable`: the
`vertical` flag forces vertical; otherwise, unless `force-table` is set,
the smart detection of `shouldUseVerticalLayout` decides. -/
def displayAsTableLayout (cfg : Config) (columns : List String)
    (rows : List (List String)) (termWidth : Int) : Layout :=
  if cfg.vertical then Layout.vertical
  else if !cfg.forceTable && shouldUseVerticalLayout columns rows termWidth then
    Layout.vertical
  else Layout.table

/-- Worker for `initialWidths`, carrying the column index. -/
def initialWidthsFrom (rows : List (List String)) :
    List String → Nat → List Nat
  | [], _ => []
  | col :: rest, i =>
    colContentMax rows i (strLen col) :: initialWidthsFrom rows rest (i + 1)

/-- Initial per-column widths of `calculateColumnWidths`: header length,
raised to the longest cell in the column (cells of rows shorter than the
column index are skipped, mirroring `if i < len(colWidths)`). -/
def initialWidths (columns : List String) (rows : List (List String)) : List Nat :=
  initialWidthsFrom rows columns 0

/-- Total length of all cells in the grid (`totalContentWidth`). -/
def totalContentWidth (rows : List (List String)) : Nat :=
  (rows.map (fun row => (row.map strLen).sum)).sum

/-- The effective max-width ceiling of `calculateColumnWidths`: the
`--max-width` flag (defaulting to 20 when it is `<= 0`), overridden to 15
by compact mode, and overridden to 15 when the average cell length across
the grid exceeds 50. -/
def effectiveMaxWidth (cfg : Config) (columns : List String)
    (rows : List (List String)) : Int :=
  let mw : Int := if cfg.maxWidth ≤ 0 then 20 else cfg.maxWidth
  let mw : Int := if cfg.compact then 15 else mw
  let avg : Nat :=
    if 0 < rows.length ∧ 0 < columns.length then
      totalContentWidth rows / (rows.length * columns.length)
    else 0
  if avg > 50 then 15 else mw

/-- Separator overhead `(columnCount-1)*3 + 4` added to the capped sum. -/
def separatorOverhead (columns : List String) : Int :=
  ((columns.length : Int) - 1) * 3 + 4

/-- Sum of the ceiling-capped initial widths plus separator overhead
(the `totalWidth` accumulator of `calculateColumnWidths`). -/
def cappedTotalWidth (cfg : Config) (columns : List String)
    (rows : List (List String)) : Int :=
  ((initialWidths columns rows).map
      (fun (w : Nat) => if (w : Int) > effectiveMaxWidth cfg columns rows
                        then effectiveMaxWidth cfg columns rows else (w : Int))).sum
    + separatorOverhead columns

/-- Whether `calculateColumnWidths` takes the proportional-shrink branch
(`totalWidth > availableWidth`). -/
def shrinkBranch (cfg : Config) (columns : List String)
    (rows : List (List String)) (availableWidth : Int) : Bool :=
  cappedTotalWidth cfg columns rows > availableWidth

/-- Scaled width of one column in the shrink branch:
`int(float64(w) * factor)` with
`factor = float64(availableWidth-overhead) / float64(totalWidth-overhead)`,
modelled as exact rational arithmetic truncated toward zero. -/
def scaledWidth (cfg : Config) (columns : List String)
    (rows : List (List String)) (availableWidth : Int) (w : Nat) : Int :=
  ((w : Int) * (availableWidth - separatorOverhead columns)).tdiv
    (cappedTotalWidth cfg columns rows - separatorOverhead columns)

/-- Final width of one column in the shrink branch: the scaled width,
floored at 4 and then capped at the ceiling (in that order). -/
def shrunkWidth (cfg : Config) (columns : List String)
    (rows : List (List String)) (availableWidth : Int) (w : Nat) : Int :=
  let nw := scaledWidth cfg columns rows availableWidth w
  let nw2 := if nw < 4 then 4 else nw
  if nw2 > effectiveMaxWidth cfg columns rows
  then effectiveMaxWidth cfg columns rows else nw2

/-- `calculateColumnWidths` from `cmd/query.go`.  Returns the column
width plan: capped initial widths, proportionally shrunk (with a floor of
4 applied before the ceiling cap) when the capped total exceeds the
available width. -/
def calculateColumnWidths (cfg : Config) (columns : List String)
    (rows : List (List String)) (availableWidth : Int) : List Int :=
  if cappedTotalWidth cfg columns rows > availableWidth then
    (initialWidths columns rows).map (fun (w : Nat) =>
      shrunkWidth cfg columns rows availableWidth w)
  else
    (initialWidths columns rows).map (fun (w : Nat) =>
      if (w : Int) > effectiveMaxWidth cfg columns rows
      then effectiveMaxWidth cfg columns rows else (w : Int))

/-- The available width computed by `displayAsTable`:
`termWidth - columnCount*3 - 1`, replaced by the fallback 80 when that
is below 20. -/
def availableWidthOf (columns : List String) (termWidth : Int) : Int :=
  let aw := termWidth - (columns.length : Int) * 3 - 1
  if aw < 20 then 80 else aw

/-- Rendering of one data cell in `printTable` (the content placed before
left-padding): a cell longer than the column width is hard-truncated to
`width-3` characters plus an ellipsis (or to `width` characters when
`width <= 3`), and afterwards an empty cell is replaced by `NULL`.
Slicing guards model Go panics. -/
def printTableCell (cell : String) (width : Int) : Option String :=
  let truncated : Option String :=
    if (strLen cell : Int) > width then
      if width > 3 then (goSlice cell (width - 3)).map (fun s => s ++ "...")
      else goSlice cell width
    else some cell
  truncated.map (fun c => if c = "" then "NULL" else c)

/-- Left-padding `fmt.Sprintf` with a `%-*s` verb: pads with spaces up to
the width, never truncates. -/
def padRight (width : Int) (s : String) : String :=
  s ++ ⟨List.replicate (width.toNat - strLen s) ' '⟩

/-- Rendering of one header cell in `printTable`: headers longer than the
column width are sliced to exactly the width (no ellipsis). -/
def printTableHeaderCell (col : String) (width : Int) : Option String :=
  if (strLen col : Int) > width then goSlice col width else some col

/-- One rendered data row of `printTable`: for every column index, the
cell (the empty string when the row is too short, mirroring
`var cell string; if i < len(row)`) rendered against `colWidths[i]`
(a missing width entry is an index fault). -/
def printTableRow (colWidths : List Int) (row : List String) :
    List String → Nat → Option (List String)
  | [], _ => some []
  | _ :: rest, i =>
    match colWidths.get? i with
    | none => none
    | some width =>
      let cell := match row.get? i with
        | some c => c
        | none => ""
      match printTableCell cell width with
      | none => none
      | some rendered =>
        (printTableRow colWidths row rest (i + 1)).map
          (fun tail => padRight width rendered :: tail)

/-- The rendered header row of `printTable`. -/
def printTableHeader (colWidths : List Int) :
    List String → Nat → Option (List String)
  | [], _ => some []
  | col :: rest, i =>
    match colWidths.get? i with
    | none => none
    | some width =>
      match printTableHeaderCell col width with
      | none => none
      | some rendered =>
        (printTableHeader colWidths rest (i + 1)).map
          (fun tail => padRight width rendered :: tail)

/-- Sequential fallible iteration (`none` aborts, as a Go panic does). -/
def optionMapM {α β : Type} (f : α → Option β) : List α → Option (List β)
  | [] => some []
  | a :: l =>
    match f a with
    | none => none
    | some b => (optionMapM f l).map (fun bs => b :: bs)

/-- `printTable`: the grid of rendered cells (header row and data rows);
the surrounding box-drawing borders are fixed text and are omitted.
`none` models a panic while rendering. -/
def printTable (columns : List String) (rows : List (List String))
    (colWidths : List Int) : Option (List String × List (List String)) :=
  match printTableHeader colWidths columns 0 with
  | none => none
  | some header =>
    (optionMapM (fun row => printTableRow colWidths row columns 0) rows).map
      (fun body => (header, body))

/-- Whitespace predicate of Go `unicode.IsSpace` (ASCII range). -/
def isGoSpace (c : Char) : Bool :=
  c = ' ' || c = '\t' || c = '\n' || c = '\r' || c.toNat = 11 || c.toNat = 12

/-- Worker for `goFields`: splits a character list around whitespace runs,
accumulating the current word in reverse. -/
def fieldsGo : List Char → List Char → List String
  | [], cur => if cur = [] then [] else [⟨cur.reverse⟩]
  | c :: cs, cur =>
    if isGoSpace c then
      if cur = [] then fieldsGo cs [] else (⟨cur.reverse⟩ : String) :: fieldsGo cs []
    else fieldsGo cs (c :: cur)

/-- Go `strings.Fields`: the whitespace-separated words of a string. -/
def goFields (s : String) : List String := fieldsGo s.data []

/-- The line-building loop of `wrapText`: greedily packs words into lines
no wider than `width`, starting a new line when a word does not fit. -/
def wrapTextLines (width : Int) : List String → String → List String
  | [], cur => if strLen cur > 0 then [cur] else []
  | w :: ws, cur =>
    if strLen cur = 0 then wrapTextLines width ws w
    else if (strLen cur : Int) + 1 + (strLen w : Int) ≤ width then
      wrapTextLines width ws (cur ++ " " ++ w)
    else cur :: wrapTextLines width ws w

/-- `wrapText` from `cmd/query.go`: word-wraps at `width`, joining the
lines with newlines; text that already fits, or has no words, is
returned unchanged. -/
def wrapText (text : String) (width : Int) : String :=
  if (strLen text : Int) ≤ width then text
  else
    let words := goFields text
    if words = [] then text
    else joinSep (wrapTextLines width words "") "\n"

/-- Go `strings.Split(s, "\n")`. -/
def splitLines (s : String) : List String :=
  (s.data.splitOn '\n').map (fun l => (⟨l⟩ : String))

/-- The greedy word accumulator of the long-content branch of
`truncateOrWrapText`: keeps adding whole words while
`len(result)+len(word)+4 <= maxWidth`, stopping at the first word that
does not fit. -/
def greedyWords (maxWidth : Int) : List String → String → String
  | [], result => result
  | w :: ws, result =>
    if (strLen result : Int) + (strLen w : Int) + 4 ≤ maxWidth then
      greedyWords maxWidth ws (if result = "" then w else result ++ " " ++ w)
    else result

/-- `truncateOrWrapText` from `cmd/query.go`: the four-rule cell
truncator (fits as-is; width at most 8 hard-truncates; content over 200
characters accumulates whole words; spaced content with width over 15
keeps the first wrapped line; otherwise hard truncation).  `none` models
a Go slicing panic. -/
def truncateOrWrapText (text : String) (maxWidth : Int) : Option String :=
  if (strLen text : Int) ≤ maxWidth then some text
  else if maxWidth ≤ 8 then
    if (strLen text : Int) > maxWidth - 3 then
      (goSlice text (maxWidth - 3)).map (fun s => s ++ "...")
    else some text
  else
    let rule2 : Option String :=
      if strLen text > 200 then
        let words := goFields text
        if words = [] then none
        else
          let result := greedyWords maxWidth words ""
          if result ≠ "" ∧ strLen result < strLen text then some (result ++ "...")
          else none
      else none
    match rule2 with
    | some r => some r
    | none =>
      let rule3 : Option String :=
        if text.data.contains ' ' ∧ maxWidth > 15 then
          match splitLines (wrapText text maxWidth) with
          | l :: _ :: _ => some (l ++ "...")
          | _ => none
        else none
      match rule3 with
      | some r => some r
      | none =>
        if maxWidth > 3 then (goSlice text (maxWidth - 3)).map (fun s => s ++ "...")
        else goSlice text maxWidth

/-- Longest column-name length, as computed inside `displayWideTable`. -/
def maxColNameLen (columns : List String) : Nat :=
  columns.foldl (fun m c => if strLen c > m then strLen c else m) 0

/-- Value truncation of the vertical layout: a value is cut to
`termWidth - maxColNameLen - 13` characters plus an ellipsis whenever its
length exceeds `termWidth - maxColNameLen - 10`.  A negative slice bound
is a Go panic (`none`). -/
def verticalValue (termWidth : Int) (m : Nat) (value : String) : Option String :=
  if (strLen value : Int) > termWidth - (m : Int) - 10 then
    (goSlice value (termWidth - (m : Int) - 13)).map (fun s => s ++ "...")
  else some value

/-- A vertical-layout value as displayed: truncated, then an empty value
replaced by `NULL`. -/
def verticalDisplayed (termWidth : Int) (m : Nat) (value : String) : Option String :=
  (verticalValue termWidth m value).map (fun v => if v = "" then "NULL" else v)

/-- One row of `displayWideTable`: the `name: value` pairs, with the
empty string standing in for missing trailing cells
(`value := ""; if i < len(row)`). -/
def displayWideTableRow (columns : List String) (termWidth : Int)
    (row : List String) : List String → Nat → Option (List (String × String))
  | [], _ => some []
  | col :: rest, i =>
    let value := match row.get? i with
      | some v => v
      | none => ""
    match verticalDisplayed termWidth (maxColNameLen columns) value with
    | none => none
    | some v =>
      (displayWideTableRow columns termWidth row rest (i + 1)).map
        (fun tail => (col, v) :: tail)

/-- `displayWideTable`: every row rendered vertically; the banner, dashes
and summary lines are fixed text and are omitted. -/
def displayWideTable (columns : List String) (rows : List (List String))
    (termWidth : Int) : Option (List (List (String × String))) :=
  optionMapM (fun row => displayWideTableRow columns termWidth row columns 0) rows

/-- Value escaping of `displayAsJSON`:
`strings.ReplaceAll(v, quote, backslash-quote)` (the pattern being a
single character, `ReplaceAll` is exactly this character expansion). -/
def jsonEscape (s : String) : String :=
  ⟨s.data.flatMap (fun c => if c = '"' then ['\\', '"'] else [c])⟩

/-- One `"col": "value"` pair of `displayAsJSON`: the column name is
emitted verbatim, the value through `jsonEscape`. -/
def jsonPair (col cell : String) : String :=
  "\"" ++ col ++ "\": \"" ++ jsonEscape cell ++ "\""

/-- The pairs of one JSON row: iterates the column list, indexing
`row[j]` unconditionally — `none` models the Go index panic on a row
shorter than the column list. -/
def jsonPairs (row : List String) : List String → Nat → Option (List String)
  | [], _ => some []
  | col :: rest, j =>
    match row.get? j with
    | none => none
    | some cell => (jsonPairs row rest (j + 1)).map (fun tail => jsonPair col cell :: tail)

/-- One printed row line of `displayAsJSON`. -/
def jsonRowLine (columns : List String) (row : List String) (isLast : Bool) :
    Option String :=
  (jsonPairs row columns 0).map (fun ps =>
    "  \x7b" ++ joinSep ps ", " ++ "\x7d" ++ (if isLast then "" else ",") ++ "\n")

/-- The row lines of `displayAsJSON`, comma-separated except the last. -/
def jsonRows (columns : List String) : List (List String) → Option String
  | [] => some ""
  | [row] => jsonRowLine columns row true
  | row :: rest =>
    match jsonRowLine columns row false with
    | none => none
    | some line => (jsonRows columns rest).map (fun tail => line ++ tail)

/-- `displayAsJSON`: the emitted JSON text (banner and summary lines are
fixed text and are omitted); `none` models the index panic. -/
def displayAsJSON (columns : List String) (rows : List (List String)) :
    Option String :=
  (jsonRows columns rows).map (fun body => "[\n" ++ body ++ "]\n")

/-- Field escaping of `displayAsCSV`: doubled-quote escaping. -/
def csvEscape (s : String) : String :=
  ⟨s.data.flatMap (fun c => if c = '"' then ['"', '"'] else [c])⟩

/-- One always-quoted CSV field. -/
def csvField (s : String) : String := "\"" ++ csvEscape s ++ "\""

/-- One CSV line: the given cells, quoted, comma-separated. -/
def csvLine (cells : List String) : String := joinSep (cells.map csvField) "," ++ "\n"

/-- `displayAsCSV`: header line, then one line per row — each row emits
exactly its own cells (a short row yields fewer fields, no NULL fill). -/
def displayAsCSV (columns : List String) (rows : List (List String)) : String :=
  csvLine columns ++ String.join (rows.map csvLine)

/-- The interactive-session presentation state mutated by special
commands (the package-level `queryFormat`, `queryCompact`,
`queryVertical`, `queryLimit` variables). -/
structure Session where
  format : String
  compact : Bool
  vertical : Bool
  limit : Int
deriving DecidableEq, Repr

/-- Result of handling one special command: the new session state,
whether the loop should exit (the handler's boolean return), and whether
an error message was printed. -/
structure CommandOutcome where
  state : Session
  exitRequested : Bool
  errorReported : Bool
deriving DecidableEq, Repr

/-- Go `strings.TrimSpace`. -/
def goTrimSpace (s : String) : String :=
  ⟨((s.data.dropWhile isGoSpace).reverse.dropWhile isGoSpace).reverse⟩

/-- Go `strings.HasPrefix`. -/
def goStartsWith (s p : String) : Bool := p.data.isPrefixOf s.data

/-- Drop the first `n` characters of a string. -/
def goDropLen (s : String) (n : Nat) : String := ⟨s.data.drop n⟩

/-- Go `strings.TrimPrefix`. -/
def goTrimStart (s p : String) : String :=
  if goStartsWith s p then goDropLen s (strLen p) else s

/-- Decimal value of a digit run; `none` if empty or non-digit. -/
def digitsVal (ds : List Char) : Option Nat :=
  if ds = [] then none
  else
    ds.foldl
      (fun acc? c =>
        acc?.bind (fun acc => if c.isDigit then some (acc * 10 + (c.toNat - 48)) else none))
      (some 0)

/-- Go `strconv.Atoi`: optional sign followed by at least one digit
(the machine-range check is irrelevant at the inputs considered). -/
def goAtoi (s : String) : Option Int :=
  match s.data with
  | '+' :: ds => (digitsVal ds).map (fun n => (n : Int))
  | '-' :: ds => (digitsVal ds).map (fun n => -(n : Int))
  | ds => (digitsVal ds).map (fun n => (n : Int))

/-- `handleSpecialCommand` from `cmd/query.go`: the dot-command
dispatcher of interactive mode, with its branches in source order. -/
def handleSpecialCommand (st : Session) (command : String) : CommandOutcome :=
  if command = ".exit" ∨ command = ".quit" then ⟨st, true, false⟩
  else if command = ".help" then ⟨st, false, false⟩
  else if goStartsWith command ".format " then
    let newFormat := goTrimSpace (goTrimStart command ".format ")
    if newFormat = "table" ∨ newFormat = "json" ∨ newFormat = "csv" then
      ⟨{ st with format := newFormat }, false, false⟩
    else ⟨st, false, true⟩
  else if command = ".compact" then ⟨{ st with compact := !st.compact }, false, false⟩
  else if command = ".vertical" then ⟨{ st with vertical := !st.vertical }, false, false⟩
  else if goStartsWith command ".limit " then
    let limitStr := goTrimSpace (goTrimStart command ".limit ")
    if limitStr = "" then ⟨st, false, false⟩
    else
      match goAtoi limitStr with
      | some n => ⟨{ st with limit := n }, false, false⟩
      | none => ⟨st, false, true⟩
  else if command = ".clear" then ⟨st, false, false⟩
  else ⟨st, false, true⟩

/-- The row-limiting step at the top of `displayAsTable`: with a positive
limit smaller than the row count, only the first `limit` rows survive. -/
def limitedRows (cfg : Config) (rows : List (List String)) : List (List String) :=
  if cfg.limit > 0 ∧ (rows.length : Int) > cfg.limit then rows.take cfg.limit.toNat
  else rows

/-- Whether `displayAsTable` prints the `Showing first n rows` hint. -/
def limitHintShown (cfg : Config) (rows : List (List String)) : Bool :=
  decide (cfg.limit > 0 ∧ (rows.length : Int) > cfg.limit)

/-- Which emitter `executeAndDisplayQuery` hands the materialized rows
to, and with which row set. -/
inductive EmitterCall
  | json (columns : List String) (rows : List (List String))
  | csv (columns : List String) (rows : List (List String))
  | table (columns : List String) (rows : List (List String))
deriving DecidableEq

/-- The format dispatch of `executeAndDisplayQuery`: JSON and CSV receive
the full materialized row set; everything else goes to
`displayAsTable`. -/
def displayDispatch (cfg : Config) (columns : List String)
    (rows : List (List String)) : EmitterCall :=
  if cfg.format = "json" then EmitterCall.json columns rows
  else if cfg.format = "csv" then EmitterCall.csv columns rows
  else EmitterCall.table columns rows

/-- JSON insignificant whitespace (RFC 8259). -/
def isJsonWs (c : Char) : Bool := c = ' ' || c = '\n' || c = '\t' || c = '\r'

/-- Skip JSON whitespace. -/
def skipJsonWs : List Char → List Char
  | [] => []
  | c :: cs => if isJsonWs c then skipJsonWs cs else c :: cs

/-- Hexadecimal digit. -/
def isHexDigit (c : Char) : Bool :=
  c.isDigit || ('a' ≤ c ∧ c ≤ 'f') || ('A' ≤ c ∧ c ≤ 'F')

/-- Scan the remainder of a JSON string literal (after the opening
quote), enforcing the RFC 8259 escape rules; returns the input after the
closing quote. -/
def scanJsonString : Nat → List Char → Option (List Char)
  | 0, _ => none
  | _, [] => none
  | fuel + 1, c :: cs =>
    if c = '"' then some cs
    else if c = '\\' then
      match cs with
      | [] => none
      | e :: cs2 =>
        if e = '"' || e = '\\' || e = '/' || e = 'b' || e = 'f' || e = 'n' || e = 'r' || e = 't' then
          scanJsonString fuel cs2
        else if e = 'u' then
          match cs2 with
          | h1 :: h2 :: h3 :: h4 :: cs3 =>
            if isHexDigit h1 && isHexDigit h2 && isHexDigit h3 && isHexDigit h4 then
              scanJsonString fuel cs3
            else none
          | _ => none
        else none
    else if c.toNat < 32 then none
    else scanJsonString fuel cs

/-- Drop a (possibly empty) digit run. -/
def dropDigits : List Char → List Char
  | [] => []
  | c :: cs => if c.isDigit then dropDigits cs else c :: cs

/-- Scan the optional fraction and exponent of a JSON number. -/
def scanFracExp (l : List Char) : Option (List Char) :=
  let afterFrac : Option (List Char) :=
    match l with
    | '.' :: c :: cs => if c.isDigit then some (dropDigits cs) else none
    | '.' :: [] => none
    | _ => some l
  match afterFrac with
  | none => none
  | some l2 =>
    match l2 with
    | e :: rest =>
      if e = 'e' || e = 'E' then
        let rest2 := match rest with
          | s :: cs => if s = '+' || s = '-' then cs else s :: cs
          | [] => []
        match rest2 with
        | c :: cs => if c.isDigit then some (dropDigits cs) else none
        | [] => none
      else some (e :: rest)
    | [] => some []

/-- Scan a JSON number (RFC 8259 grammar). -/
def scanJsonNumber (l : List Char) : Option (List Char) :=
  let l1 := match l with
    | '-' :: cs => cs
    | _ => l
  match l1 with
  | c :: cs =>
    if c = '0' then scanFracExp cs
    else if c.isDigit then scanFracExp (dropDigits cs)
    else none
  | [] => none

mutual

/-- Recognize one JSON value; returns the remaining input. -/
def parseJsonValue : Nat → List Char → Option (List Char)
  | 0, _ => none
  | fuel + 1, l =>
    match skipJsonWs l with
    | [] => none
    | c :: cs =>
      if c = '"' then scanJsonString (cs.length + 1) cs
      else if c.toNat = 123 then
        match skipJsonWs cs with
        | d :: ds => if d.toNat = 125 then some ds else parseJsonMembers fuel (d :: ds)
        | [] => none
      else if c = '[' then
        match skipJsonWs cs with
        | d :: ds => if d = ']' then some ds else parseJsonElements fuel (d :: ds)
        | [] => none
      else if c = 't' then
        match cs with
        | 'r' :: 'u' :: 'e' :: rest => some rest
        | _ => none
      else if c = 'f' then
        match cs with
        | 'a' :: 'l' :: 's' :: 'e' :: rest => some rest
        | _ => none
      else if c = 'n' then
        match cs with
        | 'u' :: 'l' :: 'l' :: rest => some rest
        | _ => none
      else scanJsonNumber (c :: cs)

/-- Recognize the non-empty member list of a JSON object, up to and
including the closing brace. -/
def parseJsonMembers : Nat → List Char → Option (List Char)
  | 0, _ => none
  | fuel + 1, l =>
    match skipJsonWs l with
    | [] => none
    | c :: cs =>
      if c = '"' then
        match scanJsonString (cs.length + 1) cs with
        | none => none
        | some rest =>
          match skipJsonWs rest with
          | ':' :: rest2 =>
            match parseJsonValue fuel rest2 with
            | none => none
            | some rest3 =>
              match skipJsonWs rest3 with
              | ',' :: rest4 => parseJsonMembers fuel rest4
              | d :: ds => if d.toNat = 125 then some ds else none
              | [] => none
          | _ => none
      else none

/-- Recognize the non-empty element list of a JSON array, up to and
including the closing bracket. -/
def parseJsonElements : Nat → List Char → Option (List Char)
  | 0, _ => none
  | fuel + 1, l =>
    match parseJsonValue fuel l with
    | none => none
    | some rest =>
      match skipJsonWs rest with
      | ',' :: rest2 => parseJsonElements fuel rest2
      | ']' :: rest2 => some rest2
      | _ => none

end

/-- Whether a string is well-formed JSON: one JSON value followed only by
whitespace.  The fuel bound is generous — every recursive step first
consumes at least one input character. -/
def isValidJson (s : String) : Bool :=
  match parseJsonValue (s.data.length * 2 + 8) s.data with
  | some rest => (skipJsonWs rest).isEmpty
  | none => false

/-- The truncation the flat-table render path applies to an overflowing
cell, stated from the amended claim C2: hard truncation to `width - 3`
characters plus an ellipsis, or to exactly `width` characters when the
width is at most 3. -/
def hardTruncateSpec (cell : String) (width : Int) : String :=
  if width > 3 then strTake cell (width - 3).toNat ++ "..."
  else strTake cell width.toNat

/-- Ten ten-character column names (counterexample input for C4). -/
def tenWideCols : List String :=
  ["aaaaaaaaaa","bbbbbbbbbb","cccccccccc","dddddddddd","eeeeeeeeee",
   "ffffffffff","gggggggggg","hhhhhhhhhh","iiiiiiiiii","jjjjjjjjjj"]

/-- A ten-row result body (witness input for the row-limit claim). -/
def tenRows : List (List String) :=
  [["r1"],["r2"],["r3"],["r4"],["r5"],["r6"],["r7"],["r8"],["r9"],["r10"]]

/-! Helper lemmas about the column scan and the width solver. -/

theorem colContentMax_ge_init (rows : List (List String)) (i init : Nat) :
    init ≤ colContentMax rows i init := by
  induction rows generalizing init with
  | nil => simp [colContentMax]
  | cons row rows ih =>
    have hstep : init ≤
        (match row.get? i with
          | some cell => if strLen cell > init then strLen cell else init
          | none => init) := by
      cases row.get? i with
      | none => exact le_refl _
      | some cell =>
        by_cases h : strLen cell > init
        · simp [h]; omega
        · simp [h]
    calc init ≤ _ := hstep
      _ ≤ _ := ih _

theorem colContentMax_ge_cell (rows : List (List String)) (i init : Nat)
    (row : List String) (cell : String) (hrow : row ∈ rows)
    (hcell : row.get? i = some cell) :
    strLen cell ≤ colContentMax rows i init := by
  induction rows generalizing init with
  | nil => cases hrow
  | cons row0 rows ih =>
    rcases List.mem_cons.mp hrow with h | h
    · subst h
      have hstep : strLen cell ≤
          (match row.get? i with
            | some c => if strLen c > init then strLen c else init
            | none => init) := by
        rw [hcell]
        by_cases h : strLen cell > init
        · simp [h]
        · simp [h]; omega
      calc strLen cell ≤ _ := hstep
        _ ≤ _ := colContentMax_ge_init rows i _
    · exact ih _ h

theorem initialWidthsFrom_get (rows : List (List String)) (columns : List String)
    (i j : Nat) (col : String) (hcol : columns.get? j = some col) :
    (initialWidthsFrom rows columns i).get? j
      = some (colContentMax rows (i + j) (strLen col)) := by
  induction columns generalizing i j with
  | nil => simp at hcol
  | cons c rest ih =>
    cases j with
    | zero => simp at hcol; subst hcol; simp [initialWidthsFrom]
    | succ j =>
      simp only [List.get?] at hcol
      have := ih (i + 1) j hcol
      simp only [initialWidthsFrom, List.get?]
      rw [this]
      congr 2
      omega

theorem initialWidths_get (columns : List String) (rows : List (List String))
    (j : Nat) (col : String) (hcol : columns.get? j = some col) :
    (initialWidths columns rows).get? j
      = some (colContentMax rows j (strLen col)) := by
  have := initialWidthsFrom_get rows columns 0 j col hcol
  simpa [initialWidths] using this

theorem initialWidthsFrom_length (rows : List (List String))
    (columns : List String) (i : Nat) :
    (initialWidthsFrom rows columns i).length = columns.length := by
  induction columns generalizing i with
  | nil => rfl
  | cons c rest ih => simp [initialWidthsFrom, ih]

theorem initialWidths_length (columns : List String) (rows : List (List String)) :
    (initialWidths columns rows).length = columns.length := by
  simp [initialWidths, initialWidthsFrom_length]

theorem calculateColumnWidths_length (cfg : Config) (columns : List String)
    (rows : List (List String)) (availableWidth : Int) :
    (calculateColumnWidths cfg columns rows availableWidth).length
      = columns.length := by
  unfold calculateColumnWidths
  split <;> rw [List.length_map, initialWidths_length]

theorem effectiveMaxWidth_pos (cfg : Config) (columns : List String)
    (rows : List (List String)) :
    1 ≤ effectiveMaxWidth cfg columns rows := by
  unfold effectiveMaxWidth
  by_cases h1 : cfg.maxWidth ≤ 0 <;> by_cases h2 : cfg.compact <;>
    simp [h1, h2] <;> split <;> omega

theorem shrunkWidth_nonneg (cfg : Config) (columns : List String)
    (rows : List (List String)) (availableWidth : Int) (w : Nat) :
    0 ≤ shrunkWidth cfg columns rows availableWidth w := by
  have hmax := effectiveMaxWidth_pos cfg columns rows
  unfold shrunkWidth
  dsimp only
  split <;> split <;> omega

theorem shrunkWidth_le_ceiling (cfg : Config) (columns : List String)
    (rows : List (List String)) (availableWidth : Int) (w : Nat) :
    shrunkWidth cfg columns rows availableWidth w
      ≤ effectiveMaxWidth cfg columns rows := by
  unfold shrunkWidth
  dsimp only
  split <;> split <;> omega

theorem shrunkWidth_ge_four (cfg : Config) (columns : List String)
    (rows : List (List String)) (availableWidth : Int) (w : Nat)
    (hceil : 4 ≤ effectiveMaxWidth cfg columns rows) :
    4 ≤ shrunkWidth cfg columns rows availableWidth w := by
  unfold shrunkWidth
  dsimp only
  split <;> split <;> omega

theorem calculateColumnWidths_nonneg (cfg : Config) (columns : List String)
    (rows : List (List String)) (availableWidth : Int) (w : Int)
    (hw : w ∈ calculateColumnWidths cfg columns rows availableWidth) :
    0 ≤ w := by
  have hmax := effectiveMaxWidth_pos cfg columns rows
  unfold calculateColumnWidths at hw
  split at hw
  · obtain ⟨w0, _, hval⟩ := List.mem_map.mp hw
    rw [← hval]
    exact shrunkWidth_nonneg cfg columns rows availableWidth w0
  · obtain ⟨w0, _, hval⟩ := List.mem_map.mp hw
    rw [← hval]
    have : (0 : Int) ≤ (w0 : Int) := Int.ofNat_nonneg w0
    split <;> omega

theorem calculateColumnWidths_le_ceiling (cfg : Config) (columns : List String)
    (rows : List (List String)) (availableWidth : Int) (w : Int)
    (hw : w ∈ calculateColumnWidths cfg columns rows availableWidth) :
    w ≤ effectiveMaxWidth cfg columns rows := by
  unfold calculateColumnWidths at hw
  split at hw
  · obtain ⟨w0, _, hval⟩ := List.mem_map.mp hw
    rw [← hval]
    exact shrunkWidth_le_ceiling cfg columns rows availableWidth w0
  · obtain ⟨w0, _, hval⟩ := List.mem_map.mp hw
    rw [← hval]
    split <;> omega

theorem shrunkWidth_ge_min (cfg : Config) (columns : List String)
    (rows : List (List String)) (availableWidth : Int) (w : Nat) :
    min 4 (effectiveMaxWidth cfg columns rows)
      ≤ shrunkWidth cfg columns rows availableWidth w := by
  unfold shrunkWidth
  dsimp only
  split <;> split <;> omega

theorem printTableCell_isSome (cell : String) (width : Int) (h : 0 ≤ width) :
    (printTableCell cell width).isSome = true := by
  unfold printTableCell goSlice
  dsimp only
  by_cases h1 : (strLen cell : Int) > width
  · by_cases h2 : width > 3
    · rw [if_pos h1, if_pos h2, if_pos ⟨by omega, by omega⟩]
      rfl
    · rw [if_pos h1, if_neg h2, if_pos ⟨h, by omega⟩]
      rfl
  · rw [if_neg h1]
    rfl

theorem printTableHeaderCell_isSome (col : String) (width : Int) (h : 0 ≤ width) :
    (printTableHeaderCell col width).isSome = true := by
  unfold printTableHeaderCell goSlice
  by_cases h1 : (strLen col : Int) > width
  · rw [if_pos h1, if_pos ⟨h, by omega⟩]
    rfl
  · rw [if_neg h1]
    rfl

theorem printTableRow_isSome (colWidths : List Int) (row : List String)
    (hnn : ∀ w ∈ colWidths, 0 ≤ w) (cols : List String) (i : Nat)
    (hlen : i + cols.length ≤ colWidths.length) :
    (printTableRow colWidths row cols i).isSome = true := by
  induction cols generalizing i with
  | nil => rfl
  | cons c rest ih =>
    have hi : i < colWidths.length := by
      simp only [List.length_cons] at hlen
      omega
    unfold printTableRow
    cases hcw : colWidths.get? i with
    | none =>
      rw [List.get?_eq_none] at hcw
      omega
    | some width =>
      have hwid : 0 ≤ width := hnn width (List.get?_mem hcw)
      have htail := ih (i + 1) (by simp only [List.length_cons] at hlen; omega)
      cases hrc : row.get? i with
      | none =>
        dsimp only
        obtain ⟨rendered, hpc⟩ :=
          Option.isSome_iff_exists.mp (printTableCell_isSome "" width hwid)
        rw [hpc]
        dsimp only
        rw [Option.isSome_map']
        exact htail
      | some c0 =>
        dsimp only
        obtain ⟨rendered, hpc⟩ :=
          Option.isSome_iff_exists.mp (printTableCell_isSome c0 width hwid)
        rw [hpc]
        dsimp only
        rw [Option.isSome_map']
        exact htail

theorem printTableHeader_isSome (colWidths : List Int)
    (hnn : ∀ w ∈ colWidths, 0 ≤ w) (cols : List String) (i : Nat)
    (hlen : i + cols.length ≤ colWidths.length) :
    (printTableHeader colWidths cols i).isSome = true := by
  induction cols generalizing i with
  | nil => rfl
  | cons c rest ih =>
    have hi : i < colWidths.length := by
      simp only [List.length_cons] at hlen
      omega
    unfold printTableHeader
    cases hcw : colWidths.get? i with
    | none =>
      rw [List.get?_eq_none] at hcw
      omega
    | some width =>
      have hwid : 0 ≤ width := hnn width (List.get?_mem hcw)
      have htail := ih (i + 1) (by simp only [List.length_cons] at hlen; omega)
      dsimp only
      obtain ⟨rendered, hpc⟩ :=
        Option.isSome_iff_exists.mp (printTableHeaderCell_isSome c width hwid)
      rw [hpc]
      dsimp only
      rw [Option.isSome_map']
      exact htail

theorem optionMapM_isSome {α β : Type} (f : α → Option β) (l : List α)
    (h : ∀ a ∈ l, (f a).isSome = true) : (optionMapM f l).isSome = true := by
  induction l with
  | nil => rfl
  | cons a l ih =>
    unfold optionMapM
    cases hfa : f a with
    | none =>
      have := h a (List.mem_cons_self a l)
      rw [hfa] at this
      exact Bool.noConfusion this
    | some b =>
      simp only [Option.isSome_map']
      exact ih (fun x hx => h x (List.mem_cons_of_mem _ hx))

theorem tdiv_add_tdiv_le (a b d : Int) (ha : 0 ≤ a) (hb : 0 ≤ b) (hd : 0 < d) :
    a.tdiv d + b.tdiv d ≤ (a + b).tdiv d := by
  rw [Int.tdiv_eq_ediv ha (le_of_lt hd), Int.tdiv_eq_ediv hb (le_of_lt hd),
      Int.tdiv_eq_ediv (by omega) (le_of_lt hd)]
  rw [Int.le_ediv_iff_mul_le hd, add_mul]
  have h1 : a / d * d ≤ a := Int.ediv_mul_le a (ne_of_gt hd)
  have h2 : b / d * d ≤ b := Int.ediv_mul_le b (ne_of_gt hd)
  omega

theorem sum_scaled_le (num den : Int) (hnum : 0 ≤ num) (hden : 0 < den)
    (l : List Nat) :
    (l.map (fun (w : Nat) => ((w : Int) * num).tdiv den)).sum
      ≤ ((l.sum : Int) * num).tdiv den := by
  induction l with
  | nil => simp
  | cons w l ih =>
    simp only [List.map_cons, List.sum_cons, Nat.cast_add, add_mul]
    calc ((w : Int) * num).tdiv den
          + (l.map (fun (w : Nat) => ((w : Int) * num).tdiv den)).sum
        ≤ ((w : Int) * num).tdiv den + ((l.sum : Int) * num).tdiv den := by
          omega
      _ ≤ ((w : Int) * num + (l.sum : Int) * num).tdiv den :=
          tdiv_add_tdiv_le _ _ _ (by positivity) (by positivity) hden

theorem shrunkWidth_le_scaled (cfg : Config) (columns : List String)
    (rows : List (List String)) (availableWidth : Int) (w : Nat)
    (h4 : 4 ≤ scaledWidth cfg columns rows availableWidth w) :
    shrunkWidth cfg columns rows availableWidth w
      ≤ scaledWidth cfg columns rows availableWidth w := by
  unfold shrunkWidth
  dsimp only
  split <;> split <;> omega

theorem sum_map_intCast (l : List Nat) :
    (l.map (fun (w : Nat) => (w : Int))).sum = (l.sum : Int) := by
  induction l with
  | nil => rfl
  | cons w l ih =>
    simp only [List.map_cons, List.sum_cons, ih, Nat.cast_add]

theorem cappedTotalWidth_of_all_le (cfg : Config) (columns : List String)
    (rows : List (List String))
    (hcap : ∀ w ∈ initialWidths columns rows,
      (w : Int) ≤ effectiveMaxWidth cfg columns rows) :
    cappedTotalWidth cfg columns rows
      = ((initialWidths columns rows).sum : Int) + separatorOverhead columns := by
  unfold cappedTotalWidth
  congr 1
  rw [← sum_map_intCast]
  apply congrArg
  apply List.map_congr_left
  intro w hw
  rw [if_neg]
  have := hcap w hw
  omega

theorem calculateColumnWidths_get (cfg : Config) (columns : List String)
    (rows : List (List String)) (availableWidth : Int) (j : Nat) (p : Nat)
    (hp : (initialWidths columns rows).get? j = some p) :
    (calculateColumnWidths cfg columns rows availableWidth).get? j
      = some (if cappedTotalWidth cfg columns rows > availableWidth
              then shrunkWidth cfg columns rows availableWidth p
              else if (p : Int) > effectiveMaxWidth cfg columns rows
                   then effectiveMaxWidth cfg columns rows else (p : Int)) := by
  unfold calculateColumnWidths
  split <;> rename_i hbr
  · rw [List.get?_map, hp]
    rfl
  · rw [List.get?_map, hp]
    rfl

theorem printTableCell_of_fits (cell : String) (width : Int)
    (hfit : (strLen cell : Int) ≤ width) (hne : cell ≠ "") :
    printTableCell cell width = some cell := by
  unfold printTableCell
  rw [if_neg (by omega)]
  simp [hne]

theorem shouldUseVerticalLayout_eq_true_iff (columns : List String)
    (rows : List (List String)) (termWidth : Int) :
    shouldUseVerticalLayout columns rows termWidth = true ↔
      (15 ≤ columns.length
        ∨ (∃ row ∈ rows, ∃ cell ∈ row, 200 < strLen cell)
        ∨ termWidth + 50 < (estimatedWidth rows columns 0 : Int)) := by
  unfold shouldUseVerticalLayout
  split <;> rename_i h1
  · simp only [true_iff]
    exact Or.inl h1
  · split <;> rename_i h2
    · simp only [true_iff]
      refine Or.inr (Or.inl ?_)
      simpa [List.any_eq_true] using h2
    · split <;> rename_i h3
      · simp only [true_iff]
        exact Or.inr (Or.inr (by omega))
      · simp only [Bool.false_eq_true, false_iff]
        push_neg
        refine ⟨by omega, ?_, by omega⟩
        intro row hrow cell hcell
        have h2x : ¬ (∃ row ∈ rows, ∃ cell ∈ row, 200 < strLen cell) := by
          intro hx
          apply h2
          simpa [List.any_eq_true] using hx
        push_neg at h2x
        exact h2x row hrow cell hcell

theorem printTableCell_empty (width : Int) (h : 0 ≤ width) :
    printTableCell "" width = some "NULL" := by
  unfold printTableCell
  have h0 : strLen "" = 0 := rfl
  rw [if_neg (by omega)]
  rfl

theorem verticalDisplayed_empty (W : Int) (m : Nat) (h : (m : Int) + 10 ≤ W) :
    verticalDisplayed W m "" = some "NULL" := by
  unfold verticalDisplayed verticalValue
  have h0 : strLen "" = 0 := rfl
  rw [if_neg (by omega)]
  rfl

theorem verticalDisplayed_of_fits (W : Int) (m : Nat) (cell : String)
    (hfit : (m : Int) + strLen cell + 10 ≤ W) (hne : cell ≠ "") :
    verticalDisplayed W m cell = some cell := by
  unfold verticalDisplayed verticalValue
  rw [if_neg (by omega)]
  simp [hne]

theorem jsonEscapeChars_eq_self (l : List Char) (h : l.contains '"' = false) :
    (l.flatMap (fun c => if c = '"' then ['\\', '"'] else [c])) = l := by
  induction l with
  | nil => rfl
  | cons c cs ih =>
    rw [List.contains_cons, Bool.or_eq_false_iff] at h
    obtain ⟨hc, hcs⟩ := h
    simp only [List.flatMap_cons]
    rw [if_neg (fun hx => by subst hx; simp at hc)]
    rw [ih hcs]
    rfl

theorem printTable_total (cfg : Config) (columns : List String)
    (rows : List (List String)) (availableWidth : Int) :
    (printTable columns rows
      (calculateColumnWidths cfg columns rows availableWidth)).isSome = true := by
  have hnn : ∀ w ∈ calculateColumnWidths cfg columns rows availableWidth, 0 ≤ w :=
    fun w hw => calculateColumnWidths_nonneg cfg columns rows availableWidth w hw
  have hlen : columns.length
      ≤ (calculateColumnWidths cfg columns rows availableWidth).length := by
    rw [calculateColumnWidths_length]
  unfold printTable
  obtain ⟨header, hh⟩ := Option.isSome_iff_exists.mp
    (printTableHeader_isSome _ hnn columns 0 (by omega))
  rw [hh]
  dsimp only
  rw [Option.isSome_map']
  exact optionMapM_isSome _ rows (fun row _ =>
    printTableRow_isSome _ row hnn columns 0 (by omega))

/-! Claim theorems. -/

/-- C1: with the vertical flag and the force-table flag both unset, the
layout selector chooses vertical layout if and only if the column count
is at least 15, or some cell is longer than 200 characters, or the
estimated total width (per column `min(40, max(header length, max cell
length))` plus 3, summed) exceeds the terminal width plus 50. -/
theorem claim_C1_layout_selector (cfg : Config) (columns : List String)
    (rows : List (List String)) (termWidth : Int)
    (hv : cfg.vertical = false) (hf : cfg.forceTable = false) :
    displayAsTableLayout cfg columns rows termWidth = Layout.vertical ↔
      (15 ≤ columns.length
        ∨ (∃ row ∈ rows, ∃ cell ∈ row, 200 < strLen cell)
        ∨ termWidth + 50 < (estimatedWidth rows columns 0 : Int)) := by
  rw [← shouldUseVerticalLayout_eq_true_iff columns rows termWidth]
  unfold displayAsTableLayout
  cases hs : shouldUseVerticalLayout columns rows termWidth <;>
    simp [hv, hf, hs]

/-- Witness for C1: a 15-column result set is laid out vertically. -/
theorem claim_C1_witness :
    displayAsTableLayout defaultConfig
      ["a","b","c","d","e","f","g","h","i","j","k","l","m","n","o"] [] 120
      = Layout.vertical :=
  (claim_C1_layout_selector defaultConfig
      ["a","b","c","d","e","f","g","h","i","j","k","l","m","n","o"] [] 120
      rfl rfl).mpr (Or.inl (by decide))

/-- C3 counterexample: on a result set with a single one-character column
name and no rows, the solver returns the plan `[1]`, whose entry is
below the claimed lower bound of 4. -/
theorem claim_C3_counterexample :
    calculateColumnWidths defaultConfig ["a"] [] 80 = [1] ∧ ¬ (4 ≤ (1 : Int)) :=
  ⟨by decide, by decide⟩

/-- C3 (amended): every entry of the width plan is at most the effective
ceiling; the claimed floor of 4 (as `min 4 ceiling`) is guaranteed only
when the proportional-shrink branch is taken — in the other branch an
entry equals the initial width capped at the ceiling and can be below
4. -/
theorem claim_C3_width_bounds (cfg : Config) (columns : List String)
    (rows : List (List String)) (availableWidth : Int) (w : Int)
    (hw : w ∈ calculateColumnWidths cfg columns rows availableWidth) :
    w ≤ effectiveMaxWidth cfg columns rows ∧
      (shrinkBranch cfg columns rows availableWidth = true →
        min 4 (effectiveMaxWidth cfg columns rows) ≤ w) := by
  refine ⟨calculateColumnWidths_le_ceiling cfg columns rows availableWidth w hw, ?_⟩
  intro hshrink
  have hgt : cappedTotalWidth cfg columns rows > availableWidth :=
    of_decide_eq_true hshrink
  unfold calculateColumnWidths at hw
  rw [if_pos hgt] at hw
  obtain ⟨w0, _, hval⟩ := List.mem_map.mp hw
  rw [← hval]
  exact shrunkWidth_ge_min cfg columns rows availableWidth w0

/-- Witness for C3 at a shrink-branch input whose plan is `[9, 9]`. -/
theorem claim_C3_witness :
    (9 : Int) ≤ effectiveMaxWidth defaultConfig ["aaaaaaaaaa","bbbbbbbbbb"] [] ∧
      (shrinkBranch defaultConfig ["aaaaaaaaaa","bbbbbbbbbb"] [] 25 = true →
        min 4 (effectiveMaxWidth defaultConfig ["aaaaaaaaaa","bbbbbbbbbb"] []) ≤ 9) :=
  claim_C3_width_bounds defaultConfig ["aaaaaaaaaa","bbbbbbbbbb"] [] 25 9 (by decide)

/-- C8: the format directive accepts exactly table, json and csv; for
every other argument value the handler reports an error, leaves the
session state (in particular the current format) unchanged, and does not
request session termination. -/
theorem claim_C8_format_directive (st : Session) (arg : String)
    (h : ¬ (goTrimSpace arg = "table" ∨ goTrimSpace arg = "json"
            ∨ goTrimSpace arg = "csv")) :
    handleSpecialCommand st (".format " ++ arg) = ⟨st, false, true⟩ := by
  have hdata : (".format " ++ arg).data = ".format ".data ++ arg.data :=
    String.data_append _ _
  have hne1 : (".format " ++ arg) ≠ ".exit" := by
    intro hx
    have := congrArg String.data hx
    rw [hdata] at this
    simp at this
  have hne2 : (".format " ++ arg) ≠ ".quit" := by
    intro hx
    have := congrArg String.data hx
    rw [hdata] at this
    simp at this
  have hne3 : (".format " ++ arg) ≠ ".help" := by
    intro hx
    have := congrArg String.data hx
    rw [hdata] at this
    simp at this
  have hpre : goStartsWith (".format " ++ arg) ".format " = true := by
    unfold goStartsWith
    rw [hdata, List.isPrefixOf_iff_prefix]
    exact List.prefix_append _ _
  have htrim : goTrimStart (".format " ++ arg) ".format " = arg := by
    unfold goTrimStart
    rw [if_pos hpre]
    unfold goDropLen strLen
    rw [hdata, List.drop_left]
  unfold handleSpecialCommand
  rw [if_neg (by intro hx; rcases hx with hx | hx; exact hne1 hx; exact hne2 hx)]
  rw [if_neg hne3, if_pos hpre, htrim, if_neg h]

/-- Witness for C8: the unsupported format `xml` is rejected with the
state unchanged. -/
theorem claim_C8_witness :
    handleSpecialCommand ⟨"table", false, false, 0⟩ (".format " ++ "xml")
      = ⟨⟨"table", false, false, 0⟩, false, true⟩ :=
  claim_C8_format_directive ⟨"table", false, false, 0⟩ "xml" (by decide)

/-- C9 counterexample: the vertical emitter is not fault-free at every
terminal width — at width 10 with a 5-character column name, displaying
the 4-character value `NULL` triggers truncation (5 + 4 + 10 > 10) and
the slice bound 10 - 5 - 13 = -8 is negative, a panic. -/
theorem claim_C9_counterexample :
    displayWideTable ["abcde"] [["NULL"]] 10 = none := by decide

/-- C9 (amended): in the vertical emitter a value is truncated exactly
when `M + L + 10 > W`; when truncation fires and `W - M - 13` is
non-negative the display is the first `W - M - 13` characters plus an
ellipsis (and is shorter than the value), but when `W - M - 13` is
negative the truncation is not well-defined: the emitter faults. -/
theorem claim_C9_vertical_truncation (W : Int) (m : Nat) (v : String) :
    (¬ ((m : Int) + strLen v + 10 > W) → verticalValue W m v = some v) ∧
    ((m : Int) + strLen v + 10 > W → 0 ≤ W - (m : Int) - 13 →
      verticalValue W m v
        = some (strTake v (W - (m : Int) - 13).toNat ++ "...") ∧
      strTake v (W - (m : Int) - 13).toNat ++ "..." ≠ v) ∧
    ((m : Int) + strLen v + 10 > W → W - (m : Int) - 13 < 0 →
      verticalValue W m v = none) := by
  refine ⟨?_, ?_, ?_⟩
  · intro hno
    unfold verticalValue
    rw [if_neg (by omega)]
  · intro htrig hk
    have hklen : (W - (m : Int) - 13).toNat + 3 < strLen v := by omega
    constructor
    · unfold verticalValue goSlice
      rw [if_pos (by omega), if_pos ⟨hk, by omega⟩]
      rfl
    · intro hx
      have hlen := congrArg strLen hx
      unfold strLen at hlen
      rw [String.data_append] at hlen
      simp only [List.length_append] at hlen
      have h1 : (strTake v (W - (m : Int) - 13).toNat).data.length
          = min (W - (m : Int) - 13).toNat v.data.length := by
        unfold strTake
        simp [List.length_take]
      unfold strLen at hklen
      simp only [List.length_cons, List.length_nil] at hlen
      omega
  · intro htrig hk
    unfold verticalValue goSlice
    rw [if_pos (by omega), if_neg (by omega)]
    rfl

/-- Witness for C9: at width 30, name length 5 and a 23-character value,
truncation keeps the first 12 characters. -/
theorem claim_C9_witness :
    verticalValue 30 5 "aaaaaaaaaaaaaaaaaaaaaaa" = some "aaaaaaaaaaaa..." := by
  have h := (claim_C9_vertical_truncation 30 5 "aaaaaaaaaaaaaaaaaaaaaaa").2.1
    (by decide) (by decide)
  rw [h.1]
  rfl

/-- C2 counterexample: for the 29-character spaced cell in a column whose
solver width is 20, the render path of `printTable` hard-truncates to
`hello world this ...`, while the four-rule truncator would keep the
first word-wrapped line, `hello world this is...` — the rendered cell is
not the four-rule output. -/
theorem claim_C2_counterexample :
    calculateColumnWidths defaultConfig ["text"]
        [["hello world this is long text"]] 116 = [20] ∧
    printTableCell "hello world this is long text" 20
      = some "hello world this ..." ∧
    truncateOrWrapText "hello world this is long text" 20
      = some "hello world this is..." ∧
    ("hello world this ..." : String) ≠ "hello world this is..." :=
  ⟨by decide, by decide, by decide, by decide⟩

/-- C2 (amended): in the flat table layout an overflowing cell is
rendered by hard truncation alone (the claim's fourth rule):
`truncateOrWrapText` is not invoked on the render path, so the first
three rules never apply there. -/
theorem claim_C2_render_truncation (cell : String) (width : Int)
    (hover : (strLen cell : Int) > width) (hpos : 0 < width) :
    printTableCell cell width = some (hardTruncateSpec cell width) := by
  unfold printTableCell hardTruncateSpec goSlice
  rw [if_pos hover]
  by_cases h3 : width > 3
  · rw [if_pos h3, if_pos (⟨by omega, by omega⟩ :
      0 ≤ width - 3 ∧ width - 3 ≤ (strLen cell : Int)), if_pos h3]
    simp only [Option.map_some']
    rw [if_neg]
    intro hx
    have := congrArg strLen hx
    unfold strLen at this
    rw [String.data_append] at this
    simp at this
  · rw [if_neg h3, if_pos (⟨by omega, by omega⟩ :
      0 ≤ width ∧ width ≤ (strLen cell : Int)), if_neg h3]
    simp only [Option.map_some']
    rw [if_neg]
    intro hx
    have := congrArg strLen hx
    unfold strLen strTake at this
    simp only [List.length_take] at this
    unfold strLen at hover
    have : min width.toNat cell.data.length = 0 := by
      simpa using this
    omega

/-- Witness for C2: the 8-character cell at width 5 renders as `ab...`. -/
theorem claim_C2_witness :
    printTableCell "abcdefgh" 5 = some "ab..." := by
  have h := claim_C2_render_truncation "abcdefgh" 5 (by decide) (by decide)
  rw [h]
  rfl

/-- C4 counterexample: ten ten-character columns at available width 50
take the shrink branch (capped total 131 > 50); every scaled width
collapses below 4 and is floored to 4, and the final sum 40 plus the
separator overhead 31 exceeds the available width 50. -/
theorem claim_C4_counterexample :
    shrinkBranch defaultConfig tenWideCols [] 50 = true ∧
    (calculateColumnWidths defaultConfig tenWideCols [] 50).sum
        + separatorOverhead tenWideCols = 71 ∧
    ¬ ((71 : Int) ≤ 50) :=
  ⟨by decide, by decide, by decide⟩

/-- C4 (amended): the no-overflow bound holds exactly when neither clamp
of the shrink branch fires: if the shrink branch is taken on a non-empty
column set, every initial width is within the ceiling (so the scale
denominator is the true initial sum) and every scaled width is at least
4, then the sum of the final widths plus separator overhead is at most
the available width.  The counterexample shows the floor of 4 breaks the
bound otherwise. -/
theorem claim_C4_shrink_no_overflow (cfg : Config) (columns : List String)
    (rows : List (List String)) (availableWidth : Int)
    (hne : columns ≠ [])
    (hshrink : shrinkBranch cfg columns rows availableWidth = true)
    (hcap : ∀ w ∈ initialWidths columns rows,
      (w : Int) ≤ effectiveMaxWidth cfg columns rows)
    (hmin : ∀ w ∈ initialWidths columns rows,
      4 ≤ scaledWidth cfg columns rows availableWidth w) :
    (calculateColumnWidths cfg columns rows availableWidth).sum
      + separatorOverhead columns ≤ availableWidth := by
  have hgt : cappedTotalWidth cfg columns rows > availableWidth :=
    of_decide_eq_true hshrink
  have hden : cappedTotalWidth cfg columns rows - separatorOverhead columns
      = ((initialWidths columns rows).sum : Int) := by
    rw [cappedTotalWidth_of_all_le cfg columns rows hcap]
    ring
  have hlen0 : initialWidths columns rows ≠ [] := by
    intro hx
    have := initialWidths_length columns rows
    rw [hx] at this
    exact hne (List.length_eq_zero.mp this.symm)
  obtain ⟨w0, hw0⟩ := List.exists_mem_of_ne_nil _ hlen0
  have h4 := hmin w0 hw0
  have hdpos : 0 < cappedTotalWidth cfg columns rows - separatorOverhead columns := by
    rw [hden]
    rcases Nat.eq_zero_or_pos (initialWidths columns rows).sum with hz | hp
    · exfalso
      unfold scaledWidth at h4
      rw [hden, hz] at h4
      simp at h4
    · exact_mod_cast hp
  have hnpos : 0 < availableWidth - separatorOverhead columns := by
    by_contra hle
    push_neg at hle
    unfold scaledWidth at h4
    have hnn : ((w0 : Int) * (availableWidth - separatorOverhead columns)) ≤ 0 :=
      mul_nonpos_of_nonneg_of_nonpos (Int.ofNat_nonneg w0) hle
    have := Int.neg_tdiv (-((w0 : Int) * (availableWidth - separatorOverhead columns)))
      (cappedTotalWidth cfg columns rows - separatorOverhead columns)
    have hnonneg : 0 ≤ (-((w0 : Int) * (availableWidth - separatorOverhead columns))).tdiv
        (cappedTotalWidth cfg columns rows - separatorOverhead columns) :=
      Int.tdiv_nonneg (by omega) (le_of_lt hdpos)
    rw [neg_neg] at this
    omega
  have hcalc : calculateColumnWidths cfg columns rows availableWidth
      = (initialWidths columns rows).map
          (fun (w : Nat) => shrunkWidth cfg columns rows availableWidth w) := by
    unfold calculateColumnWidths
    rw [if_pos hgt]
  rw [hcalc]
  have hstep1 : ((initialWidths columns rows).map
      (fun (w : Nat) => shrunkWidth cfg columns rows availableWidth w)).sum
      ≤ ((initialWidths columns rows).map
          (fun (w : Nat) => scaledWidth cfg columns rows availableWidth w)).sum :=
    List.sum_le_sum (fun w hw =>
      shrunkWidth_le_scaled cfg columns rows availableWidth w (hmin w hw))
  have hstep2 : ((initialWidths columns rows).map
      (fun (w : Nat) => scaledWidth cfg columns rows availableWidth w)).sum
      ≤ availableWidth - separatorOverhead columns := by
    unfold scaledWidth
    have := sum_scaled_le (availableWidth - separatorOverhead columns)
      (cappedTotalWidth cfg columns rows - separatorOverhead columns)
      (le_of_lt hnpos) hdpos (initialWidths columns rows)
    calc ((initialWidths columns rows).map
        (fun (w : Nat) => ((w : Int) * (availableWidth - separatorOverhead columns)).tdiv
          (cappedTotalWidth cfg columns rows - separatorOverhead columns))).sum
        ≤ (((initialWidths columns rows).sum : Int)
            * (availableWidth - separatorOverhead columns)).tdiv
            (cappedTotalWidth cfg columns rows - separatorOverhead columns) := this
      _ = availableWidth - separatorOverhead columns := by
          rw [← hden]
          exact Int.mul_tdiv_cancel_left _ (ne_of_gt hdpos)
  omega

/-- Witness for C4: two ten-character columns at available width 25 shrink
to widths 9 and 9, and 18 plus overhead 7 is within the width 25. -/
theorem claim_C4_witness :
    (calculateColumnWidths defaultConfig ["aaaaaaaaaa","bbbbbbbbbb"] [] 25).sum
      + separatorOverhead ["aaaaaaaaaa","bbbbbbbbbb"] ≤ 25 :=
  claim_C4_shrink_no_overflow defaultConfig ["aaaaaaaaaa","bbbbbbbbbb"] [] 25
    (by decide) (by decide) (by decide) (by decide)

/-- C5 counterexample: the JSON emitter does not tolerate a short row —
on two columns and the one-cell row it indexes past the row's end and
faults, so not every output path completes. -/
theorem claim_C5_counterexample :
    displayAsJSON ["a","b"] [["x"]] = none := by decide

/-- C5 (amended): short rows are safe in the flat-table and vertical
layouts, where a missing trailing cell renders as NULL, and in CSV,
which completes but emits only the cells present (no NULL fill); the
JSON emitter is the exception and faults (see the counterexample). -/
theorem claim_C5_short_rows :
    (∀ (cfg : Config) (columns : List String) (rows : List (List String))
        (availableWidth : Int),
      (printTable columns rows
        (calculateColumnWidths cfg columns rows availableWidth)).isSome = true) ∧
    (∀ width : Int, 0 ≤ width → printTableCell "" width = some "NULL") ∧
    (∀ (W : Int) (m : Nat), (m : Int) + 10 ≤ W →
      verticalDisplayed W m "" = some "NULL") ∧
    (printTable ["a","b"] [["x"]]
        (calculateColumnWidths defaultConfig ["a","b"] [["x"]] 80)
      = some (["a", "b"], [["x", "NULL"]])) ∧
    (displayAsCSV ["a","b"] [["x"]] = "\"a\",\"b\"\n\"x\"\n") := by
  refine ⟨printTable_total, printTableCell_empty, verticalDisplayed_empty,
    by decide, by decide⟩

/-- Witness for C5 at concrete inputs. -/
theorem claim_C5_witness :
    (printTable ["a","b"] [["x"]]
      (calculateColumnWidths defaultConfig ["a","b"] [["x"]] 80)).isSome = true ∧
    printTableCell "" 10 = some "NULL" ∧
    verticalDisplayed 80 1 "" = some "NULL" :=
  ⟨claim_C5_short_rows.1 defaultConfig ["a","b"] [["x"]] 80,
   claim_C5_short_rows.2.1 10 (by decide),
   claim_C5_short_rows.2.2.1 80 1 (by decide)⟩

/-- C6: the row limit affects only the table path: with a positive limit
below the row count the table path keeps exactly the first `limit` rows
and shows the hint, a limit of 0 keeps every row with no hint, and for
every limit value the JSON and CSV emitters are handed the full
unmodified row set. -/
theorem claim_C6_row_limit (cfg : Config) (columns : List String)
    (rows : List (List String)) :
    ((0 < cfg.limit ∧ cfg.limit < (rows.length : Int)) →
      limitedRows cfg rows = rows.take cfg.limit.toNat ∧
      (limitedRows cfg rows).length = cfg.limit.toNat ∧
      limitHintShown cfg rows = true) ∧
    (cfg.limit = 0 →
      limitedRows cfg rows = rows ∧ limitHintShown cfg rows = false) ∧
    (cfg.format = "json" →
      displayDispatch cfg columns rows = EmitterCall.json columns rows) ∧
    (cfg.format = "csv" →
      displayDispatch cfg columns rows = EmitterCall.csv columns rows) := by
  refine ⟨?_, ?_, ?_, ?_⟩
  · rintro ⟨h1, h2⟩
    have hcond : cfg.limit > 0 ∧ (rows.length : Int) > cfg.limit := ⟨h1, h2⟩
    refine ⟨?_, ?_, ?_⟩
    · unfold limitedRows
      rw [if_pos hcond]
    · unfold limitedRows
      rw [if_pos hcond, List.length_take]
      omega
    · exact decide_eq_true_iff.mpr hcond
  · intro h0
    constructor
    · unfold limitedRows
      rw [if_neg (by omega)]
    · unfold limitHintShown
      rw [decide_eq_false_iff_not]
      omega
  · intro hf
    unfold displayDispatch
    rw [if_pos hf]
  · intro hf
    unfold displayDispatch
    rw [if_neg (by rw [hf]; decide), if_pos hf]

/-- Witness for C6: limit 3 on a ten-row result keeps the first three
rows and shows the hint. -/
theorem claim_C6_witness :
    limitedRows { defaultConfig with limit := 3 } tenRows
        = tenRows.take ((3 : Int)).toNat ∧
      (limitedRows { defaultConfig with limit := 3 } tenRows).length
        = ((3 : Int)).toNat ∧
      limitHintShown { defaultConfig with limit := 3 } tenRows = true :=
  (claim_C6_row_limit { defaultConfig with limit := 3 } [] tenRows).1
    ⟨by decide, by decide⟩

/-- C7 counterexample: with the max-width flag set to 3 the solver caps
the column at width 3 and the flat-table render path truncates the
literal cell `NULL` to `NUL` — it does not render as `NULL` at every
cell position of every result set. -/
theorem claim_C7_counterexample :
    calculateColumnWidths { defaultConfig with maxWidth := 3 }
        ["name"] [["NULL"]] 80 = [3] ∧
    printTableCell "NULL" 3 = some "NUL" ∧
    (some "NUL" : Option String) ≠ some "NULL" :=
  ⟨by decide, by decide, by decide⟩

/-- C7 (amended): the empty string and the literal `NULL` both render as
`NULL`, in the flat table whenever the effective ceiling is at least 4
(true for every default configuration), and in the vertical layout
whenever the terminal width is at least the longest column name plus
14. -/
theorem claim_C7_null_rendering :
    (∀ (cfg : Config) (columns : List String) (rows : List (List String))
        (availableWidth : Int) (i j : Nat) (row : List String) (cell : String)
        (width : Int),
      4 ≤ effectiveMaxWidth cfg columns rows →
      rows.get? i = some row → row.get? j = some cell →
      j < columns.length →
      (calculateColumnWidths cfg columns rows availableWidth).get? j
        = some width →
      (cell = "" ∨ cell = "NULL") →
      printTableCell cell width = some "NULL") ∧
    (∀ (W : Int) (m : Nat) (cell : String),
      (cell = "" ∨ cell = "NULL") → (m : Int) + 14 ≤ W →
      verticalDisplayed W m cell = some "NULL") := by
  constructor
  · intro cfg columns rows availableWidth i j row cell width hceil hrow hcell hj
      hwidth hval
    have hwnn : 0 ≤ width :=
      calculateColumnWidths_nonneg cfg columns rows availableWidth width
        (List.get?_mem hwidth)
    rcases hval with hval | hval
    · subst hval
      exact printTableCell_empty width hwnn
    · subst hval
      have hw4 : 4 ≤ width := by
        cases hcol : columns.get? j with
        | none =>
          rw [List.get?_eq_none] at hcol
          omega
        | some col =>
          have hp := initialWidths_get columns rows j col hcol
          have hcw := calculateColumnWidths_get cfg columns rows availableWidth j
            (colContentMax rows j (strLen col)) hp
          rw [hwidth] at hcw
          have hcell4 : 4 ≤ colContentMax rows j (strLen col) := by
            have := colContentMax_ge_cell rows j (strLen col) row "NULL"
              (List.get?_mem hrow) hcell
            simpa using this
          have hweq := Option.some.inj hcw
          rw [hweq]
          split
          · have := shrunkWidth_ge_min cfg columns rows availableWidth
              (colContentMax rows j (strLen col))
            omega
          · split <;> omega
      have hfit : (strLen "NULL" : Int) ≤ width := by
        have : strLen "NULL" = 4 := rfl
        omega
      exact printTableCell_of_fits "NULL" width hfit (by decide)
  · intro W m cell hval hW
    rcases hval with hval | hval
    · subst hval
      exact verticalDisplayed_empty W m (by omega)
    · subst hval
      refine verticalDisplayed_of_fits W m "NULL" ?_ (by decide)
      have : strLen "NULL" = 4 := rfl
      omega

/-- Witness for C7 at a concrete result set and terminal width. -/
theorem claim_C7_witness :
    printTableCell "NULL" 4 = some "NULL" ∧
    verticalDisplayed 80 2 "NULL" = some "NULL" :=
  ⟨claim_C7_null_rendering.1 defaultConfig ["name"] [["NULL"]] 80 0 0
      ["NULL"] "NULL" 4 (by decide) (by decide) (by decide) (by decide)
      (by decide) (Or.inr rfl),
   claim_C7_null_rendering.2 80 2 "NULL" (Or.inr rfl) (by decide)⟩

/-- C10: the JSON emitter escapes exactly the double quote in values
(backslash, newline and all other characters pass through verbatim) and
emits column names with no escaping at all; consequently a backslash in
a value or a double quote in a column name produces output that is not
well-formed JSON, while quote-free data produces well-formed output. -/
theorem claim_C10_json_escaping :
    (∀ v : String, v.data.contains '"' = false → jsonEscape v = v) ∧
    (jsonEscape "\\" = "\\" ∧ jsonEscape "\n" = "\n"
      ∧ jsonEscape "\"" = "\\\"") ∧
    (jsonPair "a\"b" "x" = "\"a\"b\": \"x\"") ∧
    (displayAsJSON ["c"] [["hi"]] = some "[\n  \x7b\"c\": \"hi\"\x7d\n]\n" ∧
      isValidJson "[\n  \x7b\"c\": \"hi\"\x7d\n]\n" = true) ∧
    (displayAsJSON ["c"] [["\\"]] = some "[\n  \x7b\"c\": \"\\\"\x7d\n]\n" ∧
      isValidJson "[\n  \x7b\"c\": \"\\\"\x7d\n]\n" = false) ∧
    (displayAsJSON ["a\"b"] [["x"]] = some "[\n  \x7b\"a\"b\": \"x\"\x7d\n]\n" ∧
      isValidJson "[\n  \x7b\"a\"b\": \"x\"\x7d\n]\n" = false) := by
  refine ⟨?_, ⟨by decide, by decide, by decide⟩, by decide,
    ⟨by decide, by decide⟩, ⟨by decide, by decide⟩, ⟨by decide, by decide⟩⟩
  intro v h
  unfold jsonEscape
  rw [jsonEscapeChars_eq_self v.data h]

/-- Witness for C10: a quote-free value is emitted unchanged. -/
theorem claim_C10_witness :
    jsonEscape "plain value" = "plain value" :=
  claim_C10_json_escaping.1 "plain value" (by decide)

end MindsDBCLI
